import Mathlib

/-!
Shallow embedding of the differential row-reordering engine of
`activities/views.py` (`UserSheetDataView.patch`, the PATCH handler for
sheet data) together with the row model of `activities/models.py`
(`ActivitySheetRow`).

A sheet row carries a stable database id, a mutable 1-indexed display
position `row_order`, a deprecated `row_number` kept in sync, an opaque
`data` mapping, an opaque `styles` mapping and a display `height`.
`row_order` and `row_number` are `PositiveIntegerField`s, so the store
rejects writes of negative values (that is the one failure mode modelled
here: the whole transaction rolls back, represented by `none`).

The store is modelled as a list of rows (iteration order of the table)
plus the sheet's maintained `row_count` aggregate and the id counter the
database uses to assign fresh primary keys.
-/

namespace Activities

/-- Opaque JSON-object payloads (`data`, `styles`): association lists. -/
abbrev Payload := List (String × String)

/-- One `ActivitySheetRow` record. -/
structure Row where
  id : Nat
  row_order : Int
  row_number : Int
  data : Payload
  styles : Payload
  height : Nat
deriving Repr, DecidableEq

/-- An `ActivitySheet` restricted to the state the PATCH handler touches:
its rows, its `row_count` aggregate, and the database's next fresh row id. -/
structure Sheet where
  rows : List Row
  row_count : Nat
  nextId : Nat
deriving Repr, DecidableEq

/-- One item of `operations["updates"]`: a dict with optional keys. -/
structure UpdateItem where
  id : Option Nat
  data : Option Payload
  styles : Option Payload
  height : Option Nat
deriving Repr, DecidableEq

/-- One item of `operations["insertions"]`. -/
structure InsertItem where
  insert_at_order : Option Int
  data : Option Payload
  styles : Option Payload
  height : Option Nat
deriving Repr, DecidableEq

/-- One item of `operations["appends"]` (and of legacy `new_rows`). -/
structure AppendItem where
  data : Option Payload
  styles : Option Payload
  height : Option Nat
deriving Repr, DecidableEq

/-- One item of legacy `updated_rows` / `new_rows`: a dict with optional
`id`, `data`, `styles`, `height` keys. -/
structure LegacyRow where
  id : Option Nat
  data : Option Payload
  styles : Option Payload
  height : Option Nat
deriving Repr, DecidableEq

/-- The `operations` dict of the canonical request format.  Each field is
`none` when the key is absent. -/
structure OperationsDict where
  updates : Option (List UpdateItem)
  insertions : Option (List InsertItem)
  deletions : Option (List Nat)
  appends : Option (List AppendItem)
deriving Repr, DecidableEq

/-- The request body of the PATCH endpoint (after the `sheet_id` and
permission checks, which abort before any mutation). -/
structure PatchRequest where
  operations : Option OperationsDict
  updated_rows : Option (List LegacyRow)
  new_rows : Option (List LegacyRow)
  deleted_row_ids : Option (List Nat)
  deleted_row_numbers : Option (List Int)
deriving Repr, DecidableEq

/-- An entry of the response's `errors` list: offending id (the code can
record a missing id as `None`) and reason string. -/
abbrev ErrEntry := Option Nat × String

/-- The JSON body of a successful response. -/
structure PatchResult where
  success : Bool
  message : String
  updated_count : Nat
  inserted_count : Nat
  created_count : Nat
  deleted_count : Nat
  row_count : Nat
  errors : List ErrEntry
deriving Repr, DecidableEq

/-- The four operation lists after input normalisation. -/
structure Ops where
  updates : List UpdateItem
  insertions : List InsertItem
  deletions : List Nat
  appends : List AppendItem
deriving Repr, DecidableEq

/-! ### Input normalisation (canonical and backward-compatible formats) -/

/-- Python truthiness of the `operations` dict: it is truthy when it has
at least one key. -/
def dictTruthy (o : OperationsDict) : Bool :=
  o.updates.isSome || o.insertions.isSome || o.deletions.isSome || o.appends.isSome

/-- `updated_rows` conversion: `if row_id:` keeps only present, nonzero ids,
and the produced update item fills every field with its default. -/
def legacyToUpdate (r : LegacyRow) : Option UpdateItem :=
  match r.id with
  | some i => if i ≠ 0 then
      some { id := some i, data := some (r.data.getD []),
             styles := some (r.styles.getD []), height := some (r.height.getD 32) }
    else none
  | none => none

/-- `new_rows` conversion: every legacy new row becomes an append item with
defaulted fields. -/
def legacyToAppend (r : LegacyRow) : AppendItem :=
  { data := some (r.data.getD []), styles := some (r.styles.getD []),
    height := some (r.height.getD 32) }

/-- A stable ascending insertion sort by an integer key (the semantics of
Python's stable `sorted(..., key=...)` and of SQL `ORDER BY`): an element
is inserted after every element whose key is not greater. -/
def insertLtBy {α : Type} (key : α → Int) (x : α) : List α → List α
  | [] => [x]
  | y :: ys => if key x < key y then x :: y :: ys else y :: insertLtBy key x ys

/-- Stable sort by key, ascending; ties keep input order. -/
def sortLtBy {α : Type} (key : α → Int) : List α → List α
  | [] => []
  | x :: xs => insertLtBy key x (sortLtBy key xs)

/-- Rows of a sheet in `ORDER BY row_order` (the model's default Meta
ordering and the explicit `order_by('row_order')`). -/
def sortByOrder (rows : List Row) : List Row := sortLtBy (fun r => r.row_order) rows

/-- Translate the request into the four operation lists: read
`operations` (defaulting each list to `[]`), and when the `operations`
dict is falsy run the backward-compatibility adapter, which appends the
translated `updated_rows`, `new_rows`, `deleted_row_ids` and resolved
`deleted_row_numbers` to those lists. -/
def parseOps (s : Sheet) (req : PatchRequest) : Ops :=
  let o := req.operations.getD ⟨none, none, none, none⟩
  let updates := o.updates.getD []
  let insertions := o.insertions.getD []
  let deletions := o.deletions.getD []
  let appends := o.appends.getD []
  if dictTruthy o then
    ⟨updates, insertions, deletions, appends⟩
  else
    let updates := updates ++ (req.updated_rows.getD []).filterMap legacyToUpdate
    let appends := appends ++ (req.new_rows.getD []).map legacyToAppend
    let deletions := deletions ++ req.deleted_row_ids.getD []
    let drn := req.deleted_row_numbers.getD []
    let deletions := if drn.isEmpty then deletions else
      deletions ++ (sortByOrder (s.rows.filter (fun r => r.row_order ∈ drn))).map (fun r => r.id)
    ⟨updates, insertions, deletions, appends⟩

/-! ### Step 1: deletions -/

/-- Deduplicate keeping first occurrences (the code builds a Python `set`
of the submitted ids; the model fixes a canonical iteration order). -/
def dedupFirst : List Nat → List Nat
  | [] => []
  | x :: xs => x :: (dedupFirst xs).filter (fun y => y ≠ x)

/-- Step 1 of the handler: ids present in the sheet are deleted, ids not
found each produce one `'Row ID not found'` error; returns the surviving
rows, `deleted_count` and the recorded errors. -/
def deleteStep (rows : List Row) (deletions : List Nat) :
    List Row × Nat × List ErrEntry :=
  if deletions.isEmpty then (rows, 0, []) else
    let existing_ids := (rows.filter (fun r => r.id ∈ deletions)).map (fun r => r.id)
    let invalid := (dedupFirst deletions).filter (fun i => i ∉ existing_ids)
    let errs := invalid.map (fun i => ((some i, "Row ID not found") : ErrEntry))
    let kept := rows.filter (fun r => r.id ∉ existing_ids)
    (kept, (rows.filter (fun r => r.id ∈ existing_ids)).length, errs)

/-! ### Step 2: insertions with descending-order shifting -/

/-- `insert_data.get('insert_at_order', 1)`: the sort key and target
position of an insertion item. -/
def insertAtOrder (it : InsertItem) : Int := it.insert_at_order.getD 1

/-- The rows the shift loop iterates over:
`filter(row_order__gte=insert_at).order_by('-row_order')`, i.e. the rows
at or after the target position, in descending position order
(descending = ascending by negated key). -/
def shiftList (rows : List Row) (P : Int) : List Row :=
  sortLtBy (fun r => -r.row_order) (rows.filter (fun r => P ≤ r.row_order))

/-- The sequence of storage writes the shift loop performs: for each row
of `shiftList` in order, one `save(update_fields=['row_order'])` writing
`row_order + 1` for that row's id. -/
def shiftWrites (rows : List Row) (P : Int) : List (Nat × Int) :=
  (shiftList rows P).map (fun r => (r.id, r.row_order + 1))

/-- Apply one storage write `(id, new row_order)` to the store. -/
def applyWrite (rows : List Row) (w : Nat × Int) : List Row :=
  rows.map (fun x => if x.id = w.1 then { x with row_order := w.2 } else x)

/-- The store after the whole shift loop of one insertion. -/
def shiftApply (rows : List Row) (P : Int) : List Row :=
  (shiftWrites rows P).foldl applyWrite rows

/-- The row `ActivitySheetRow.objects.create(...)` builds for an
insertion: fresh id, `row_order = row_number = insert_at`, defaulted
payload fields. -/
def newRowFromInsert (nid : Nat) (P : Int) (it : InsertItem) : Row :=
  { id := nid, row_order := P, row_number := P,
    data := it.data.getD [], styles := it.styles.getD [], height := it.height.getD 32 }

/-- Apply one insertion to `(rows, next fresh id, inserted_count)`:
shift, then create the new row at the target position.  Creating a row
with negative `row_order`/`row_number` violates the store's
`PositiveIntegerField` non-negativity check, so the transaction aborts
(`none`). -/
def insertOne (acc : List Row × Nat × Nat) (it : InsertItem) :
    Option (List Row × Nat × Nat) :=
  let P := insertAtOrder it
  if P < 0 then none
  else some (shiftApply acc.1 P ++ [newRowFromInsert acc.2.1 P it],
             acc.2.1 + 1, acc.2.2 + 1)

/-- The loop over the sorted insertion list. -/
def insertLoop : List InsertItem → List Row × Nat × Nat → Option (List Row × Nat × Nat)
  | [], acc => some acc
  | it :: its, acc =>
    match insertOne acc it with
    | none => none
    | some acc' => insertLoop its acc'

/-- Step 2 of the handler: sort the insertions ascending by target
position (stable, so ties keep input order) and apply them one at a
time. -/
def insertStep (rows : List Row) (nid : Nat) (items : List InsertItem) :
    Option (List Row × Nat × Nat) :=
  insertLoop (sortLtBy insertAtOrder items) (rows, nid, 0)

/-! ### Step 3: updates -/

/-- Apply the fields present in an update item to a row; absent fields
keep their prior value; `id`, `row_order` and `row_number` are not
touched. -/
def updateFields (u : UpdateItem) (r : Row) : Row :=
  { r with data := u.data.getD r.data, styles := u.styles.getD r.styles,
           height := u.height.getD r.height }

/-- The per-row effect of one update item targeting id `i`. -/
def updateOne (u : UpdateItem) (i : Nat) (r : Row) : Row :=
  if r.id = i then updateFields u r else r

/-- The loop of step 3 over the update items.  `ids` is the fixed snapshot
of row ids used for the one-pass lookup (`existing_rows`); an item whose
id is absent, zero (falsy, so dropped from `update_ids`) or unknown
records a `'Row not found for update'` error and is skipped. -/
def updLoop (ids : List Nat) :
    List UpdateItem → List Row → Nat → List ErrEntry → List Row × Nat × List ErrEntry
  | [], rows, cnt, errs => (rows, cnt, errs)
  | u :: us, rows, cnt, errs =>
    match u.id with
    | some i =>
      if i ≠ 0 ∧ i ∈ ids then
        updLoop ids us (rows.map (updateOne u i)) (cnt + 1) errs
      else
        updLoop ids us rows cnt (errs ++ [(some i, "Row not found for update")])
    | none => updLoop ids us rows cnt (errs ++ [(none, "Row not found for update")])

/-- Step 3 of the handler. -/
def updatesStep (rows : List Row) (us : List UpdateItem) :
    List Row × Nat × List ErrEntry :=
  updLoop (rows.map (fun r => r.id)) us rows 0 []

/-! ### Step 4: appends -/

/-- `aggregate(Max('row_order'))` over the sheet's rows. -/
def maxRowOrder : List Row → Option Int
  | [] => none
  | r :: rs =>
    some (match maxRowOrder rs with
          | none => r.row_order
          | some m => max r.row_order m)

/-- The row built for the idx-th appended item (`enumerate(..., start=1)`):
position `max_order + idx`, fresh sequential id from `bulk_create`. -/
def newRowFromAppend (nid : Nat) (pos : Int) (it : AppendItem) : Row :=
  { id := nid, row_order := pos, row_number := pos,
    data := it.data.getD [], styles := it.styles.getD [], height := it.height.getD 32 }

/-- Step 4 of the handler: compute the current maximum `row_order`
(`or 0` makes it 0 on an empty sheet) and bulk-create the appended rows
at `max+1, max+2, ...` in input order. -/
def appendStep (rows : List Row) (nid : Nat) (items : List AppendItem) :
    List Row × Nat × Nat :=
  let maxOrder := (maxRowOrder rows).getD 0
  let newRows := items.enum.map
    (fun p => newRowFromAppend (nid + p.1) (maxOrder + ((p.1 : Int) + 1)) p.2)
  (rows ++ newRows, nid + items.length, items.length)

/-! ### Step 5: renumbering -/

/-- Reassign positions `i, i+1, ...` to a list of rows in order, writing
(`bulk_update`) only the rows whose `row_order` actually changes; a
written row also gets its deprecated `row_number` synced. -/
def renumberFrom : Int → List Row → List Row
  | _, [] => []
  | i, r :: rs =>
    (if r.row_order = i then r else { r with row_order := i, row_number := i }) ::
      renumberFrom (i + 1) rs

/-- Step 5 of the handler: read all rows ordered by `row_order` and
renumber them `1..N`. -/
def renumber (rows : List Row) : List Row := renumberFrom 1 (sortByOrder rows)

/-! ### The PATCH handler -/

/-- Build the response body. -/
def mkResult (updated inserted appended deleted rowCount : Nat)
    (errs : List ErrEntry) : PatchResult :=
  { success := errs.isEmpty,
    message := if errs.isEmpty then "تم تحديث البيانات بنجاح" else "تم التحديث مع بعض الأخطاء",
    updated_count := updated, inserted_count := inserted,
    created_count := appended, deleted_count := deleted,
    row_count := rowCount, errors := errs }

/-- Apply one normalised batch inside the atomic transaction:
deletions, insertions, updates, appends, renumbering, and the
`row_count` aggregate update; `none` means the transaction rolled back
(a storage write failed), so nothing is persisted and no response body
is produced. -/
def patchOps (s : Sheet) (ops : Ops) : Option (Sheet × PatchResult) :=
  let d := deleteStep s.rows ops.deletions
  match insertStep d.1 s.nextId ops.insertions with
  | none => none
  | some ins =>
    let upd := updatesStep ins.1 ops.updates
    let app := appendStep upd.1 ins.2.1 ops.appends
    let finalRows := renumber app.1
    let cnt := finalRows.length
    some ({ rows := finalRows, row_count := cnt, nextId := app.2.1 },
          mkResult upd.2.1 ins.2.2 app.2.2 d.2.1 cnt (d.2.2 ++ upd.2.2))

/-- The PATCH handler after the fatal-error checks: normalise the request
and run the batch. -/
def patch (s : Sheet) (req : PatchRequest) : Option (Sheet × PatchResult) :=
  patchOps s (parseOps s req)

/-! ### Auxiliary definitions used to state and prove the properties -/

/-- The positions `start, start+1, ..., start+n-1`. -/
def intRange : Int → Nat → List Int
  | _, 0 => []
  | i, n + 1 => i :: intRange (i + 1) n

/-- A row with its position incremented (the effect of one shift write). -/
def incRow (r : Row) : Row := { r with row_order := r.row_order + 1 }

/-- Everything of a row except its (mutable) position fields. -/
def stripOrder (r : Row) : Nat × Payload × Payload × Nat :=
  (r.id, r.data, r.styles, r.height)

/-- Look a row up by its stable id. -/
def findRow (rows : List Row) (i : Nat) : Option Row :=
  rows.find? (fun r => r.id = i)

/-- Whether an update item passes the one-pass id lookup of step 3. -/
def validB (ids : List Nat) (u : UpdateItem) : Bool :=
  match u.id with
  | some i => decide (i ≠ 0 ∧ i ∈ ids)
  | none => false

/-- The error entry an update item records when it fails the lookup. -/
def errOf (ids : List Nat) (u : UpdateItem) : Option ErrEntry :=
  match u.id with
  | some i => if i ≠ 0 ∧ i ∈ ids then none else some (some i, "Row not found for update")
  | none => some (none, "Row not found for update")

/-- The per-row effect of one update item of step 3. -/
def updRowStep (ids : List Nat) (a : Row) (u : UpdateItem) : Row :=
  match u.id with
  | some i => if i ≠ 0 ∧ i ∈ ids then updateOne u i a else a
  | none => a

/-- The per-row effect of a whole update list of step 3. -/
def updRowFold (ids : List Nat) (us : List UpdateItem) (r : Row) : Row :=
  us.foldl (updRowStep ids) r

/-- Safety of the shift phase of one insertion at position `P`
(claim C2): the rows at positions `≥ P` are saved one at a time in
strictly descending position order; before each single-row write the
target slot (that row's position plus one) is vacant; and after every
prefix of the write sequence the positions in the store are pairwise
distinct. -/
def ShiftPhaseSafe (rows : List Row) (P : Int) : Prop :=
  (shiftList rows P).Pairwise (fun a b => b.row_order < a.row_order) ∧
  (∀ A m B, shiftList rows P = A ++ m :: B →
    ∀ x ∈ (A.map (fun r => (r.id, r.row_order + 1))).foldl applyWrite rows,
      x.row_order ≠ m.row_order + 1) ∧
  (∀ A B, shiftList rows P = A ++ B →
    (((A.map (fun r => (r.id, r.row_order + 1))).foldl applyWrite rows).map
      (fun r => r.row_order)).Nodup)

/-- A canonical-format request. -/
def canonReq (us : List UpdateItem) (ins : List InsertItem)
    (ds : List Nat) (aps : List AppendItem) : PatchRequest :=
  ⟨some ⟨some us, some ins, some ds, some aps⟩, none, none, none, none⟩

/-! ### Concrete data for the witnesses -/

/-- A concrete row for witnesses. -/
def wRow (i : Nat) (p : Int) : Row :=
  { id := i, row_order := p, row_number := p,
    data := [("k", "v")], styles := [], height := 32 }

/-- A concrete five-row sheet at positions 1..5. -/
def wSheet5 : Sheet := ⟨[wRow 1 1, wRow 2 2, wRow 3 3, wRow 4 4, wRow 5 5], 5, 6⟩

/-- A concrete three-row sheet at positions 1..3. -/
def wSheet3 : Sheet := ⟨[wRow 1 1, wRow 2 2, wRow 3 3], 3, 4⟩

/-! ## Lemmas about the stable insertion sort -/

theorem insertLtBy_perm {α : Type} (key : α → Int) (x : α) (l : List α) :
    List.Perm (insertLtBy key x l) (x :: l) := by
  induction l with
  | nil => simp [insertLtBy]
  | cons y ys ih =>
    by_cases h : key x < key y
    · simp [insertLtBy, h]
    · simp only [insertLtBy, if_neg h]
      exact (ih.cons y).trans (List.Perm.swap x y ys)

theorem sortLtBy_perm {α : Type} (key : α → Int) (l : List α) :
    List.Perm (sortLtBy key l) l := by
  induction l with
  | nil => simp [sortLtBy]
  | cons x xs ih =>
    exact (insertLtBy_perm key x (sortLtBy key xs)).trans (ih.cons x)

theorem pairwise_insertLtBy {α : Type} (key : α → Int) (x : α) (l : List α)
    (h : l.Pairwise (fun a b => key a ≤ key b)) :
    (insertLtBy key x l).Pairwise (fun a b => key a ≤ key b) := by
  induction l with
  | nil => simp [insertLtBy]
  | cons y ys ih =>
    rw [List.pairwise_cons] at h
    obtain ⟨hy, hys⟩ := h
    by_cases hxy : key x < key y
    · simp only [insertLtBy, if_pos hxy]
      refine List.pairwise_cons.mpr ⟨?_, List.pairwise_cons.mpr ⟨hy, hys⟩⟩
      intro b hb
      rcases List.mem_cons.mp hb with rfl | hb
      · exact le_of_lt hxy
      · exact le_of_lt (lt_of_lt_of_le hxy (hy b hb))
    · simp only [insertLtBy, if_neg hxy]
      refine List.pairwise_cons.mpr ⟨?_, ih hys⟩
      intro b hb
      have hb' := (insertLtBy_perm key x ys).mem_iff.mp hb
      rcases List.mem_cons.mp hb' with rfl | hb'
      · exact not_lt.mp hxy
      · exact hy b hb'

theorem sortLtBy_pairwise {α : Type} (key : α → Int) (l : List α) :
    (sortLtBy key l).Pairwise (fun a b => key a ≤ key b) := by
  induction l with
  | nil => simp [sortLtBy]
  | cons x xs ih => exact pairwise_insertLtBy key x (sortLtBy key xs) ih

theorem sortLtBy_length {α : Type} (key : α → Int) (l : List α) :
    (sortLtBy key l).length = l.length :=
  (sortLtBy_perm key l).length_eq

/-! ## Lemmas about rows and id-preserving writes -/

theorem map_id_of_preserve {f : Row → Row} (hf : ∀ r, (f r).id = r.id)
    (l : List Row) : (l.map f).map (fun r => r.id) = l.map (fun r => r.id) := by
  induction l with
  | nil => rfl
  | cons r rs ih => simp [hf, ih]

theorem row_eq_of_id_eq {l : List Row} (h : (l.map (fun r => r.id)).Nodup)
    {x y : Row} (hx : x ∈ l) (hy : y ∈ l) (hxy : x.id = y.id) : x = y :=
  List.inj_on_of_nodup_map h hx hy hxy

theorem applyWrite_map_id (rows : List Row) (w : Nat × Int) :
    (applyWrite rows w).map (fun r => r.id) = rows.map (fun r => r.id) := by
  unfold applyWrite
  refine map_id_of_preserve ?_ rows
  intro r
  by_cases h : r.id = w.1 <;> simp [h]

theorem foldl_applyWrite_map_id (ws : List (Nat × Int)) (rows : List Row) :
    ((ws.foldl applyWrite rows).map (fun r => r.id)) = rows.map (fun r => r.id) := by
  induction ws generalizing rows with
  | nil => rfl
  | cons w ws ih => rw [List.foldl_cons, ih, applyWrite_map_id]

theorem foldl_applyWrite_length (ws : List (Nat × Int)) (rows : List Row) :
    (ws.foldl applyWrite rows).length = rows.length := by
  have h := congrArg List.length (foldl_applyWrite_map_id ws rows)
  simpa using h

/-- Characterisation of a sequence of shift writes taken from a list `M`
of (snapshots of) rows of the store: the store after the writes is the
original store with exactly the rows whose id occurs in `M`
incremented. -/
theorem foldl_applyWrite_char (M rows : List Row)
    (hsub : ∀ m ∈ M, m ∈ rows)
    (hMid : (M.map (fun r => r.id)).Nodup)
    (hid : (rows.map (fun r => r.id)).Nodup) :
    (M.map (fun r => (r.id, r.row_order + 1))).foldl applyWrite rows
      = rows.map (fun x => if x.id ∈ M.map (fun r => r.id) then incRow x else x) := by
  induction M generalizing rows with
  | nil => simp
  | cons m M' ih =>
    have hm : m ∈ rows := hsub m (List.mem_cons_self m M')
    have hM'id : (M'.map (fun r => r.id)).Nodup := by
      simpa using hMid.of_cons
    have hmnot : m.id ∉ M'.map (fun r => r.id) := by
      have h := hMid
      rw [List.map_cons, List.nodup_cons] at h
      exact h.1
    -- the first write increments exactly the row equal to m
    have hstep : applyWrite rows (m.id, m.row_order + 1)
        = rows.map (fun x => if x.id = m.id then incRow x else x) := by
      unfold applyWrite
      refine List.map_congr_left ?_
      intro x hx
      by_cases hxm : x.id = m.id
      · have : x = m := row_eq_of_id_eq hid hx hm hxm
        subst this
        simp [hxm, incRow]
      · simp [hxm]
    rw [List.map_cons, List.foldl_cons, hstep]
    set rows₁ := rows.map (fun x => if x.id = m.id then incRow x else x) with hrows₁
    have hpres : ∀ x : Row, ((fun x => if x.id = m.id then incRow x else x) x).id = x.id := by
      intro x
      by_cases h : x.id = m.id <;> simp [h, incRow]
    have hid₁ : (rows₁.map (fun r => r.id)).Nodup := by
      rw [hrows₁, map_id_of_preserve hpres]
      exact hid
    have hsub₁ : ∀ m' ∈ M', m' ∈ rows₁ := by
      intro m' hm'
      have hmem : m' ∈ rows := hsub m' (List.mem_cons_of_mem m hm')
      have hne : m'.id ≠ m.id := by
        intro hcontra
        exact hmnot (hcontra ▸ List.mem_map_of_mem (fun r => r.id) hm')
      rw [hrows₁]
      have : (fun x => if x.id = m.id then incRow x else x) m' = m' := by simp [hne]
      exact this ▸ List.mem_map_of_mem _ hmem
    rw [ih rows₁ hsub₁ hM'id hid₁, hrows₁, List.map_map]
    refine List.map_congr_left ?_
    intro x hx
    simp only [Function.comp]
    by_cases hxm : x.id = m.id
    · have hnot' : x.id ∉ M'.map (fun r => r.id) := hxm ▸ hmnot
      rw [if_pos hxm, List.map_cons]
      have h1 : (incRow x).id = x.id := rfl
      have hmem : x.id ∈ m.id :: M'.map (fun r => r.id) := by
        rw [hxm]; exact List.mem_cons_self _ _
      rw [if_pos hmem]
      have h2 : (incRow x).id ∉ M'.map (fun r => r.id) := by rw [h1]; exact hnot'
      rw [if_neg h2]
    · rw [if_neg hxm, List.map_cons]
      by_cases h2 : x.id ∈ M'.map (fun r => r.id)
      · rw [if_pos h2, if_pos (List.mem_cons_of_mem _ h2)]
      · rw [if_neg h2, if_neg ?_]
        intro hc
        exact (List.mem_cons.mp hc).elim hxm h2

theorem shiftList_sub (rows : List Row) (P : Int) :
    ∀ m ∈ shiftList rows P, m ∈ rows := by
  intro m hm
  have : m ∈ rows.filter (fun r => P ≤ r.row_order) :=
    (sortLtBy_perm _ _).mem_iff.mp hm
  exact List.mem_of_mem_filter this

theorem shiftList_mem_iff (rows : List Row) (P : Int) (x : Row) :
    x ∈ shiftList rows P ↔ x ∈ rows ∧ P ≤ x.row_order := by
  unfold shiftList
  rw [(sortLtBy_perm (fun r => -r.row_order)
        (rows.filter (fun r => P ≤ r.row_order))).mem_iff, List.mem_filter]
  simp

theorem shiftList_map_id_nodup (rows : List Row) (P : Int)
    (hid : (rows.map (fun r => r.id)).Nodup) :
    ((shiftList rows P).map (fun r => r.id)).Nodup := by
  have hsl : List.Sublist
      ((rows.filter (fun r => P ≤ r.row_order)).map (fun r => r.id))
      (rows.map (fun r => r.id)) :=
    (List.filter_sublist rows).map (fun r => r.id)
  have hfil : ((rows.filter (fun r => P ≤ r.row_order)).map (fun r => r.id)).Nodup :=
    hsl.nodup hid
  exact (((sortLtBy_perm (fun r : Row => -r.row_order)
    (rows.filter (fun r => P ≤ r.row_order))).map (fun r => r.id)).nodup_iff).mpr hfil

/-- The whole shift loop of one insertion, characterised: every row at
position `≥ P` is incremented, every other row untouched. -/
theorem shiftApply_eq (rows : List Row) (P : Int)
    (hid : (rows.map (fun r => r.id)).Nodup) :
    shiftApply rows P
      = rows.map (fun x => if P ≤ x.row_order then incRow x else x) := by
  unfold shiftApply shiftWrites
  rw [foldl_applyWrite_char (shiftList rows P) rows (shiftList_sub rows P)
      (shiftList_map_id_nodup rows P hid) hid]
  refine List.map_congr_left ?_
  intro x hx
  have hiff : x.id ∈ (shiftList rows P).map (fun r => r.id) ↔ P ≤ x.row_order := by
    constructor
    · intro h
      obtain ⟨m, hm, hmx⟩ := List.mem_map.mp h
      have hmrows : m ∈ rows := shiftList_sub rows P m hm
      have : m = x := row_eq_of_id_eq hid hmrows hx hmx
      subst this
      exact ((shiftList_mem_iff rows P m).mp hm).2
    · intro h
      have : x ∈ shiftList rows P := (shiftList_mem_iff rows P x).mpr ⟨hx, h⟩
      exact List.mem_map_of_mem _ this
  exact if_congr hiff rfl rfl

/-! ## Lemmas about the renumbering pass -/

theorem renumberFrom_map_order (i : Int) (l : List Row) :
    (renumberFrom i l).map (fun r => r.row_order) = intRange i l.length := by
  induction l generalizing i with
  | nil => rfl
  | cons r rs ih =>
    simp only [renumberFrom, List.map_cons, List.length_cons, intRange]
    rw [ih (i + 1)]
    by_cases h : r.row_order = i
    · rw [if_pos h, h]
    · rw [if_neg h]

theorem renumberFrom_length (i : Int) (l : List Row) :
    (renumberFrom i l).length = l.length := by
  induction l generalizing i with
  | nil => rfl
  | cons r rs ih => simp only [renumberFrom, List.length_cons, ih]

theorem renumberFrom_map_id (i : Int) (l : List Row) :
    (renumberFrom i l).map (fun r => r.id) = l.map (fun r => r.id) := by
  induction l generalizing i with
  | nil => rfl
  | cons r rs ih =>
    simp only [renumberFrom, List.map_cons, ih]
    by_cases h : r.row_order = i
    · rw [if_pos h]
    · rw [if_neg h]

theorem renumberFrom_map_strip (i : Int) (l : List Row) :
    (renumberFrom i l).map stripOrder = l.map stripOrder := by
  induction l generalizing i with
  | nil => rfl
  | cons r rs ih =>
    simp only [renumberFrom, List.map_cons, ih]
    by_cases h : r.row_order = i
    · rw [if_pos h]
    · rw [if_neg h]
      simp [stripOrder]

theorem renumber_map_order (rows : List Row) :
    (renumber rows).map (fun r => r.row_order) = intRange 1 rows.length := by
  unfold renumber sortByOrder
  rw [renumberFrom_map_order, sortLtBy_length]

theorem renumber_length (rows : List Row) :
    (renumber rows).length = rows.length := by
  unfold renumber sortByOrder
  rw [renumberFrom_length, sortLtBy_length]

theorem renumber_map_id_perm (rows : List Row) :
    List.Perm ((renumber rows).map (fun r => r.id)) (rows.map (fun r => r.id)) := by
  unfold renumber sortByOrder
  rw [renumberFrom_map_id]
  exact (sortLtBy_perm _ rows).map (fun r => r.id)

theorem renumber_map_strip_perm (rows : List Row) :
    List.Perm ((renumber rows).map stripOrder) (rows.map stripOrder) := by
  unfold renumber sortByOrder
  rw [renumberFrom_map_strip]
  exact (sortLtBy_perm _ rows).map stripOrder

/-! ## Lemmas about id lookup -/

theorem findRow_eq_some {rows : List Row} {i : Nat} {r : Row}
    (h : findRow rows i = some r) : r ∈ rows ∧ r.id = i := by
  unfold findRow at h
  refine ⟨List.mem_of_find?_eq_some h, ?_⟩
  have := List.find?_some h
  simpa using this

theorem findRow_of_mem {rows : List Row} (hid : (rows.map (fun r => r.id)).Nodup)
    {r : Row} (hr : r ∈ rows) {i : Nat} (hri : r.id = i) :
    findRow rows i = some r := by
  induction rows with
  | nil => cases hr
  | cons x xs ih =>
    rw [List.map_cons, List.nodup_cons] at hid
    rcases List.mem_cons.mp hr with rfl | hmem
    · unfold findRow
      rw [List.find?_cons_of_pos]
      simpa using hri
    · unfold findRow
      have hne : x.id ≠ i := by
        intro hcontra
        refine hid.1 ?_
        rw [hcontra, ← hri]
        exact List.mem_map_of_mem (fun r => r.id) hmem
      rw [List.find?_cons_of_neg]
      · exact ih hid.2 hmem
      · simpa using hne

theorem findRow_map {f : Row → Row} (hf : ∀ r, (f r).id = r.id)
    (rows : List Row) (i : Nat) :
    findRow (rows.map f) i = (findRow rows i).map f := by
  induction rows with
  | nil => rfl
  | cons x xs ih =>
    unfold findRow at ih ⊢
    rw [List.map_cons, List.find?_cons, List.find?_cons, hf x]
    by_cases h : x.id = i
    · simp [h]
    · simp [h, ih]

/-! ## Lemmas about step 3 (updates) -/

theorem updRowStep_eq_of_valid (ids : List Nat) (u : UpdateItem) (r : Row)
    {i : Nat} (hu : u.id = some i) (hv : i ≠ 0 ∧ i ∈ ids) :
    updRowStep ids r u = updateOne u i r := by
  unfold updRowStep
  rw [hu]
  show (if i ≠ 0 ∧ i ∈ ids then updateOne u i r else r) = updateOne u i r
  rw [if_pos hv]

theorem updRowStep_eq_of_invalid (ids : List Nat) (u : UpdateItem) (r : Row)
    {i : Nat} (hu : u.id = some i) (hv : ¬(i ≠ 0 ∧ i ∈ ids)) :
    updRowStep ids r u = r := by
  unfold updRowStep
  rw [hu]
  show (if i ≠ 0 ∧ i ∈ ids then updateOne u i r else r) = r
  rw [if_neg hv]

theorem updRowStep_eq_of_none (ids : List Nat) (u : UpdateItem) (r : Row)
    (hu : u.id = none) : updRowStep ids r u = r := by
  unfold updRowStep
  rw [hu]

theorem updRowFold_id (ids : List Nat) (us : List UpdateItem) (r : Row) :
    (updRowFold ids us r).id = r.id := by
  unfold updRowFold
  induction us generalizing r with
  | nil => rfl
  | cons u us ih =>
    rw [List.foldl_cons]
    rw [ih]
    cases hu : u.id with
    | none => rw [updRowStep_eq_of_none ids u r hu]
    | some i =>
      by_cases hv : i ≠ 0 ∧ i ∈ ids
      · rw [updRowStep_eq_of_valid ids u r hu hv]
        unfold updateOne
        by_cases h : r.id = i
        · rw [if_pos h]; rfl
        · rw [if_neg h]
      · rw [updRowStep_eq_of_invalid ids u r hu hv]

theorem updLoop_char (ids : List Nat) (us : List UpdateItem)
    (rows : List Row) (cnt : Nat) (errs : List ErrEntry) :
    updLoop ids us rows cnt errs =
      (rows.map (updRowFold ids us), cnt + us.countP (validB ids),
       errs ++ us.filterMap (errOf ids)) := by
  induction us generalizing rows cnt errs with
  | nil =>
    have h1 : rows.map (updRowFold ids []) = rows := by
      refine Eq.trans ?_ (List.map_id rows)
      refine List.map_congr_left ?_
      intro a _
      rfl
    simp [updLoop, h1]
  | cons u us ih =>
    cases hu : u.id with
    | none =>
      simp only [updLoop, hu]
      rw [ih]
      simp only [Prod.mk.injEq]
      refine ⟨?_, ?_, ?_⟩
      · refine List.map_congr_left ?_
        intro r _
        unfold updRowFold
        rw [List.foldl_cons, updRowStep_eq_of_none ids u r hu]
      · have hval : ¬(validB ids u = true) := by
          unfold validB; rw [hu]; simp
        rw [List.countP_cons_of_neg _ _ hval]
      · have herr : errOf ids u = some ((none, "Row not found for update") : ErrEntry) := by
          unfold errOf; rw [hu]
        rw [List.filterMap_cons, herr, List.append_assoc, List.singleton_append]
    | some i =>
      by_cases hv : i ≠ 0 ∧ i ∈ ids
      · simp only [updLoop, hu, if_pos hv]
        rw [ih]
        simp only [Prod.mk.injEq]
        refine ⟨?_, ?_, ?_⟩
        · rw [List.map_map]
          refine List.map_congr_left ?_
          intro r _
          simp only [Function.comp]
          unfold updRowFold
          rw [List.foldl_cons, updRowStep_eq_of_valid ids u r hu hv]
        · have hval : validB ids u = true := by
            unfold validB; rw [hu]
            show decide (i ≠ 0 ∧ i ∈ ids) = true
            simpa using hv
          rw [List.countP_cons_of_pos _ _ hval]
          omega
        · have herr : errOf ids u = none := by
            unfold errOf; rw [hu]
            show (if i ≠ 0 ∧ i ∈ ids then none else
              some ((some i, "Row not found for update") : ErrEntry)) = none
            rw [if_pos hv]
          rw [List.filterMap_cons, herr]
      · simp only [updLoop, hu, if_neg hv]
        rw [ih]
        simp only [Prod.mk.injEq]
        refine ⟨?_, ?_, ?_⟩
        · refine List.map_congr_left ?_
          intro r _
          unfold updRowFold
          rw [List.foldl_cons, updRowStep_eq_of_invalid ids u r hu hv]
        · have hval : ¬(validB ids u = true) := by
            unfold validB; rw [hu]
            show ¬(decide (i ≠ 0 ∧ i ∈ ids) = true)
            simpa using hv
          rw [List.countP_cons_of_neg _ _ hval]
        · have herr : errOf ids u = some ((some i, "Row not found for update") : ErrEntry) := by
            unfold errOf; rw [hu]
            show (if i ≠ 0 ∧ i ∈ ids then none else
              some ((some i, "Row not found for update") : ErrEntry)) =
              some ((some i, "Row not found for update") : ErrEntry)
            rw [if_neg hv]
          rw [List.filterMap_cons, herr, List.append_assoc, List.singleton_append]

theorem updatesStep_eq (rows : List Row) (us : List UpdateItem) :
    updatesStep rows us =
      (rows.map (updRowFold (rows.map (fun r => r.id)) us),
       us.countP (validB (rows.map (fun r => r.id))),
       us.filterMap (errOf (rows.map (fun r => r.id)))) := by
  unfold updatesStep
  rw [updLoop_char]
  simp

theorem updatesStep_map_id (rows : List Row) (us : List UpdateItem) :
    (updatesStep rows us).1.map (fun r => r.id) = rows.map (fun r => r.id) := by
  rw [updatesStep_eq]
  exact map_id_of_preserve (updRowFold_id _ us) rows

/-! ## Lemmas about step 2 (the insertion loop) -/

theorem insertLoop_mem_id (its : List InsertItem)
    (acc acc' : List Row × Nat × Nat) (i : Nat)
    (h : insertLoop its acc = some acc') (hi : i ∈ acc.1.map (fun r => r.id)) :
    i ∈ acc'.1.map (fun r => r.id) := by
  induction its generalizing acc with
  | nil =>
    unfold insertLoop at h
    cases h
    exact hi
  | cons it its ih =>
    unfold insertLoop at h
    cases hone : insertOne acc it with
    | none => rw [hone] at h; cases h
    | some acc₁ =>
      rw [hone] at h
      refine ih acc₁ h ?_
      unfold insertOne at hone
      by_cases hP : insertAtOrder it < 0
      · rw [if_pos hP] at hone; cases hone
      · rw [if_neg hP] at hone
        cases hone
        rw [List.map_append]
        refine List.mem_append_left _ ?_
        unfold shiftApply
        rw [foldl_applyWrite_map_id]
        exact hi

/-! ## Safety of the shift phase (no transient duplicate positions) -/

theorem shiftList_map_order_nodup (rows : List Row) (P : Int)
    (hpos : (rows.map (fun r => r.row_order)).Nodup) :
    ((shiftList rows P).map (fun r => r.row_order)).Nodup := by
  have hsl : List.Sublist
      ((rows.filter (fun r => P ≤ r.row_order)).map (fun r => r.row_order))
      (rows.map (fun r => r.row_order)) :=
    (List.filter_sublist rows).map (fun r => r.row_order)
  have hfil := hsl.nodup hpos
  exact (((sortLtBy_perm (fun r : Row => -r.row_order)
    (rows.filter (fun r => P ≤ r.row_order))).map
      (fun r => r.row_order)).nodup_iff).mpr hfil

theorem shiftList_pairwise_desc (rows : List Row) (P : Int)
    (hpos : (rows.map (fun r => r.row_order)).Nodup) :
    (shiftList rows P).Pairwise (fun a b => b.row_order < a.row_order) := by
  have h1 := sortLtBy_pairwise (fun r : Row => -r.row_order)
    (rows.filter (fun r => P ≤ r.row_order))
  have h1' : (shiftList rows P).Pairwise (fun a b => b.row_order ≤ a.row_order) := by
    refine h1.imp ?_
    intro a b hab
    omega
  have h2 : (shiftList rows P).Pairwise
      (fun a b => a.row_order ≠ b.row_order) := by
    have hnd := shiftList_map_order_nodup rows P hpos
    have : ((shiftList rows P).map (fun r => r.row_order)).Pairwise
        (fun a b => a ≠ b) := hnd
    exact List.pairwise_map.mp this
  refine (h1'.and h2).imp ?_
  intro a b hab
  omega

/-- The store after the writes of a prefix `A` of the shift list. -/
theorem shift_front_writes_char (rows : List Row) (P : Int) (A B : List Row)
    (hid : (rows.map (fun r => r.id)).Nodup)
    (hsplit : shiftList rows P = A ++ B) :
    (A.map (fun r => (r.id, r.row_order + 1))).foldl applyWrite rows
      = rows.map (fun x => if x.id ∈ A.map (fun r => r.id) then incRow x else x) := by
  refine foldl_applyWrite_char A rows ?_ ?_ hid
  · intro a ha
    refine shiftList_sub rows P a ?_
    rw [hsplit]
    exact List.mem_append_left B ha
  · have hsub : List.Sublist (A.map (fun r => r.id))
        ((shiftList rows P).map (fun r => r.id)) := by
      rw [hsplit]
      exact (List.sublist_append_left A B).map (fun r => r.id)
    exact hsub.nodup (shiftList_map_id_nodup rows P hid)

theorem shift_phase_vacant (rows : List Row) (P : Int)
    (hid : (rows.map (fun r => r.id)).Nodup)
    (hpos : (rows.map (fun r => r.row_order)).Nodup) :
    ∀ A m B, shiftList rows P = A ++ m :: B →
      ∀ x ∈ (A.map (fun r => (r.id, r.row_order + 1))).foldl applyWrite rows,
        x.row_order ≠ m.row_order + 1 := by
  intro A m B hsplit x hx
  rw [shift_front_writes_char rows P A (m :: B) hid hsplit] at hx
  obtain ⟨x₀, hx₀, rfl⟩ := List.mem_map.mp hx
  have hdesc := shiftList_pairwise_desc rows P hpos
  rw [hsplit, List.pairwise_append] at hdesc
  obtain ⟨hA, hmB, hcross⟩ := hdesc
  have hmL : m ∈ shiftList rows P := by
    rw [hsplit]
    exact List.mem_append_right A (List.mem_cons_self m B)
  have hmP : P ≤ m.row_order := ((shiftList_mem_iff rows P m).mp hmL).2
  by_cases hmem : x₀.id ∈ A.map (fun r => r.id)
  · rw [if_pos hmem]
    obtain ⟨a, ha, haid⟩ := List.mem_map.mp hmem
    have haR : a ∈ rows := by
      refine shiftList_sub rows P a ?_
      rw [hsplit]
      exact List.mem_append_left _ ha
    have hax : a = x₀ := row_eq_of_id_eq hid haR hx₀ haid
    subst hax
    have hlt : m.row_order < a.row_order := hcross a ha m (List.mem_cons_self m B)
    simp only [incRow]
    omega
  · rw [if_neg hmem]
    by_cases hP : P ≤ x₀.row_order
    · have hxL : x₀ ∈ shiftList rows P := (shiftList_mem_iff rows P x₀).mpr ⟨hx₀, hP⟩
      rw [hsplit] at hxL
      rcases List.mem_append.mp hxL with hxA | hxMB
      · exact absurd (List.mem_map_of_mem (fun r => r.id) hxA) hmem
      · rcases List.mem_cons.mp hxMB with rfl | hxB
        · omega
        · have hblt : x₀.row_order < m.row_order :=
            (List.pairwise_cons.mp hmB).1 x₀ hxB
          omega
    · omega

theorem shift_phase_nodup (rows : List Row) (P : Int)
    (hid : (rows.map (fun r => r.id)).Nodup)
    (hpos : (rows.map (fun r => r.row_order)).Nodup) :
    ∀ A B, shiftList rows P = A ++ B →
      (((A.map (fun r => (r.id, r.row_order + 1))).foldl applyWrite rows).map
        (fun r => r.row_order)).Nodup := by
  intro A B hsplit
  rw [shift_front_writes_char rows P A B hid hsplit, List.map_map]
  have hdesc := shiftList_pairwise_desc rows P hpos
  rw [hsplit, List.pairwise_append] at hdesc
  obtain ⟨hA, hB, hcross⟩ := hdesc
  have key : ∀ a ∈ rows, ∀ b ∈ rows, a.id ∈ A.map (fun r => r.id) →
      b.id ∉ A.map (fun r => r.id) → (incRow a).row_order ≠ b.row_order := by
    intro a ha b hb hmema hmemb hcontra
    simp only [incRow] at hcontra
    obtain ⟨a', ha', haid⟩ := List.mem_map.mp hmema
    have ha'L : a' ∈ shiftList rows P := by
      rw [hsplit]
      exact List.mem_append_left _ ha'
    have ha'R : a' ∈ rows := shiftList_sub rows P a' ha'L
    have haa : a' = a := row_eq_of_id_eq hid ha'R ha haid
    subst haa
    have haP : P ≤ a'.row_order := ((shiftList_mem_iff rows P a').mp ha'L).2
    have hbP : P ≤ b.row_order := by omega
    have hbL : b ∈ shiftList rows P := (shiftList_mem_iff rows P b).mpr ⟨hb, hbP⟩
    rw [hsplit] at hbL
    rcases List.mem_append.mp hbL with hbA | hbB
    · exact hmemb (List.mem_map_of_mem (fun r => r.id) hbA)
    · have hblt : b.row_order < a'.row_order := hcross a' ha' b hbB
      omega
  have hpw : rows.Pairwise (fun a b => a.row_order ≠ b.row_order) :=
    List.pairwise_map.mp hpos
  have hgoal : rows.Pairwise (fun a b =>
      ((fun r => r.row_order) ∘
        (fun x => if x.id ∈ A.map (fun r => r.id) then incRow x else x)) a ≠
      ((fun r => r.row_order) ∘
        (fun x => if x.id ∈ A.map (fun r => r.id) then incRow x else x)) b) := by
    refine List.Pairwise.imp_of_mem ?_ hpw
    intro a b ha hb hne
    simp only [Function.comp]
    by_cases h1 : a.id ∈ A.map (fun r => r.id) <;>
      by_cases h2 : b.id ∈ A.map (fun r => r.id)
    · rw [if_pos h1, if_pos h2]
      simp only [incRow]
      omega
    · rw [if_pos h1, if_neg h2]
      exact key a ha b hb h1 h2
    · rw [if_neg h1, if_pos h2]
      intro hcontra
      exact key b hb a ha h2 h1 hcontra.symm
    · rw [if_neg h1, if_neg h2]
      exact hne
  exact List.pairwise_map.mpr hgoal

/-! ## The claims -/

/-- C1 — Contiguity invariant: for every sheet and every batch the
reconciler completes (any mix of deletions, insertions, updates, appends,
including an empty batch), the positions of the sheet's rows afterwards
are exactly `1, 2, ..., N` (in display order: no gaps, no duplicates)
where `N` is the post-batch row count, and both the sheet's stored
`row_count` aggregate and the reported `row_count` equal `N`. -/
theorem claim_C1_contiguity_invariant (s : Sheet) (req : PatchRequest)
    (s' : Sheet) (res : PatchResult) (h : patch s req = some (s', res)) :
    s'.rows.map (fun r => r.row_order) = intRange 1 s'.rows.length ∧
    s'.row_count = s'.rows.length ∧ res.row_count = s'.rows.length := by
  unfold patch patchOps at h
  dsimp only at h
  split at h
  · cases h
  · simp only [Option.some.injEq, Prod.mk.injEq] at h
    obtain ⟨h1, h2⟩ := h
    subst h1
    subst h2
    refine ⟨?_, rfl, rfl⟩
    simp only
    rw [renumber_map_order, renumber_length]

/-- Witness for C1 at a concrete input: a three-row sheet, a batch
deleting the row with id 2. -/
theorem claim_C1_witness :
    (⟨[wRow 1 1, wRow 3 2], 2, 4⟩ : Sheet).rows.map (fun r => r.row_order) =
      intRange 1 (⟨[wRow 1 1, wRow 3 2], 2, 4⟩ : Sheet).rows.length ∧
    (⟨[wRow 1 1, wRow 3 2], 2, 4⟩ : Sheet).row_count =
      (⟨[wRow 1 1, wRow 3 2], 2, 4⟩ : Sheet).rows.length ∧
    (⟨true, "تم تحديث البيانات بنجاح", 0, 0, 0, 1, 2, []⟩ : PatchResult).row_count =
      (⟨[wRow 1 1, wRow 3 2], 2, 4⟩ : Sheet).rows.length :=
  claim_C1_contiguity_invariant wSheet3
    ⟨some ⟨none, none, some [2], none⟩, none, none, none, none⟩
    ⟨[wRow 1 1, wRow 3 2], 2, 4⟩
    ⟨true, "تم تحديث البيانات بنجاح", 0, 0, 0, 1, 2, []⟩
    (by decide)

/-- C2 — No transient duplicate positions: during the shift phase of an
insertion at position `P`, the rows at positions `≥ P` are written one at
a time in strictly descending position order; every intermediate write
targets a currently-vacant position slot (no row holds the target
position at the moment of the write); and after every prefix of the
write sequence no two rows of the sheet hold the same position. -/
theorem claim_C2_no_transient_duplicate_positions (rows : List Row) (P : Int)
    (hid : (rows.map (fun r => r.id)).Nodup)
    (hpos : (rows.map (fun r => r.row_order)).Nodup) :
    ShiftPhaseSafe rows P :=
  ⟨shiftList_pairwise_desc rows P hpos,
   shift_phase_vacant rows P hid hpos,
   shift_phase_nodup rows P hid hpos⟩

/-- Witness for C2 at a concrete input: three rows at positions 1..3,
insertion at position 2 (so rows 3 and 2 are shifted, in that order). -/
theorem claim_C2_witness :
    ShiftPhaseSafe [wRow 1 1, wRow 2 2, wRow 3 3] 2 :=
  claim_C2_no_transient_duplicate_positions [wRow 1 1, wRow 2 2, wRow 3 3] 2
    (by decide) (by decide)

theorem parseOps_canon (s : Sheet) (us : List UpdateItem) (ins : List InsertItem)
    (ds : List Nat) (aps : List AppendItem) :
    parseOps s (canonReq us ins ds aps) = ⟨us, ins, ds, aps⟩ := by
  unfold parseOps canonReq dictTruthy
  simp

/-- C3 — Order-independence of insertions within one batch: for every
starting sheet and every pair of insertion items with distinct target
positions, submitting them in either order inside a single batch (with
the other operation lists held fixed) produces the same final sheet and
the same response, because the handler sorts the insertion list
ascending by target position before applying it. -/
theorem claim_C3_insertion_order_independence (s : Sheet)
    (us : List UpdateItem) (ds : List Nat) (aps : List AppendItem)
    (i1 i2 : InsertItem) (hne : insertAtOrder i1 ≠ insertAtOrder i2) :
    patch s (canonReq us [i1, i2] ds aps) = patch s (canonReq us [i2, i1] ds aps) := by
  have hsort : sortLtBy insertAtOrder [i1, i2] = sortLtBy insertAtOrder [i2, i1] := by
    simp only [sortLtBy, insertLtBy]
    rcases lt_or_gt_of_ne hne with h | h
    · rw [if_pos h, if_neg (by omega : ¬ insertAtOrder i2 < insertAtOrder i1)]
    · rw [if_neg (by omega : ¬ insertAtOrder i1 < insertAtOrder i2), if_pos h]
  unfold patch
  rw [parseOps_canon, parseOps_canon]
  unfold patchOps insertStep
  rw [hsort]

/-- Witness for C3 at a concrete input: insertions at positions 2 and 5
into a five-row sheet, submitted in both orders. -/
theorem claim_C3_witness :
    patch wSheet5 (canonReq []
        [⟨some 2, some [("k", "i2")], none, none⟩,
         ⟨some 5, some [("k", "i5")], none, none⟩] [] []) =
      patch wSheet5 (canonReq []
        [⟨some 5, some [("k", "i5")], none, none⟩,
         ⟨some 2, some [("k", "i2")], none, none⟩] [] []) :=
  claim_C3_insertion_order_independence wSheet5 [] [] []
    ⟨some 2, some [("k", "i2")], none, none⟩
    ⟨some 5, some [("k", "i5")], none, none⟩ (by decide)

/-- C8 — Identity stability: for every batch and every row of the sheet
that is not referenced by the batch's (normalised) deletion list, a row
with the same stable id is still present after the batch completes —
no step of the reconciler writes to an existing row's id. -/
theorem claim_C8_identity_stability (s : Sheet) (req : PatchRequest)
    (s' : Sheet) (res : PatchResult) (h : patch s req = some (s', res))
    (r : Row) (hr : r ∈ s.rows) (hnd : r.id ∉ (parseOps s req).deletions) :
    r.id ∈ s'.rows.map (fun r => r.id) := by
  unfold patch patchOps at h
  dsimp only at h
  split at h
  · cases h
  · rename_i ins heq
    simp only [Option.some.injEq, Prod.mk.injEq] at h
    obtain ⟨h1, h2⟩ := h
    subst h1
    have hd : r.id ∈ (deleteStep s.rows (parseOps s req).deletions).1.map (fun r => r.id) := by
      unfold deleteStep
      by_cases hemp : (parseOps s req).deletions.isEmpty
      · rw [if_pos hemp]
        exact List.mem_map_of_mem _ hr
      · rw [if_neg hemp]
        dsimp only
        refine List.mem_map_of_mem _ ?_
        rw [List.mem_filter]
        refine ⟨hr, ?_⟩
        simp only [decide_eq_true_eq]
        intro hmem
        obtain ⟨y, hy, hyid⟩ := List.mem_map.mp hmem
        rw [List.mem_filter] at hy
        have hydel : y.id ∈ (parseOps s req).deletions := by simpa using hy.2
        rw [hyid] at hydel
        exact hnd hydel
    have hins : r.id ∈ ins.1.map (fun r => r.id) := by
      unfold insertStep at heq
      exact insertLoop_mem_id _ _ ins r.id heq hd
    have hupd : r.id ∈ (updatesStep ins.1 (parseOps s req).updates).1.map (fun r => r.id) := by
      rw [updatesStep_map_id]
      exact hins
    have happ : r.id ∈ (appendStep (updatesStep ins.1 (parseOps s req).updates).1
        ins.2.1 (parseOps s req).appends).1.map (fun r => r.id) := by
      unfold appendStep
      dsimp only
      rw [List.map_append]
      exact List.mem_append_left _ hupd
    exact (renumber_map_id_perm _).mem_iff.mpr happ

/-- Witness for C8 at a concrete input: the row with id 1 survives a
batch deleting id 2 from a three-row sheet. -/
theorem claim_C8_witness :
    (wRow 1 1).id ∈ (⟨[wRow 1 1, wRow 3 2], 2, 4⟩ : Sheet).rows.map (fun r => r.id) :=
  claim_C8_identity_stability wSheet3
    ⟨some ⟨none, none, some [2], none⟩, none, none, none, none⟩
    ⟨[wRow 1 1, wRow 3 2], 2, 4⟩
    ⟨true, "تم تحديث البيانات بنجاح", 0, 0, 0, 1, 2, []⟩
    (by decide) (wRow 1 1) (by decide) (by decide)

/-- C9 — Legacy-format equivalence: a request in the legacy shape whose
`new_rows` holds two items and which has no `operations` key produces
exactly the same final sheet and response as the canonical request
carrying those two items as `appends`; moreover, for every legacy-format
request (no `operations` key) the adapter produces no positional
insertions, turns `new_rows` into appends, and merges `deleted_row_ids`
with the ids resolved (by `row_order` lookup) from the deprecated
`deleted_row_numbers` into the deletion list, before the five processing
steps run. -/
theorem claim_C9_legacy_format_equivalence (s : Sheet) (a b : LegacyRow) :
    (patch s ⟨none, none, some [a, b], none, none⟩ =
      patch s (canonReq [] [] []
        [⟨a.data, a.styles, a.height⟩, ⟨b.data, b.styles, b.height⟩])) ∧
    (∀ ur nr di dn,
      (parseOps s ⟨none, ur, nr, di, dn⟩).insertions = [] ∧
      (parseOps s ⟨none, ur, nr, di, dn⟩).appends = (nr.getD []).map legacyToAppend ∧
      (parseOps s ⟨none, ur, nr, di, dn⟩).deletions =
        di.getD [] ++ (if (dn.getD []).isEmpty then [] else
          (sortByOrder (s.rows.filter (fun r => r.row_order ∈ dn.getD []))).map
            (fun r => r.id))) := by
  constructor
  · rfl
  · intro ur nr di dn
    refine ⟨?_, ?_, ?_⟩
    · unfold parseOps dictTruthy
      simp
    · unfold parseOps dictTruthy
      simp
    · unfold parseOps dictTruthy
      by_cases hdn : (dn.getD []).isEmpty <;> simp [hdn]

theorem updRowFold_of_no_match (ids : List Nat) (us : List UpdateItem) (r : Row)
    (hno : ∀ v ∈ us, v.id ≠ some r.id) : updRowFold ids us r = r := by
  unfold updRowFold
  induction us with
  | nil => rfl
  | cons v vs ih =>
    rw [List.foldl_cons]
    have hstep : updRowStep ids r v = r := by
      cases hv : v.id with
      | none => exact updRowStep_eq_of_none ids v r hv
      | some k =>
        by_cases hval : k ≠ 0 ∧ k ∈ ids
        · rw [updRowStep_eq_of_valid ids v r hv hval]
          unfold updateOne
          rw [if_neg ?_]
          intro hc
          exact hno v (List.mem_cons_self v vs) (by rw [hv, ← hc])
        · exact updRowStep_eq_of_invalid ids v r hv hval
    rw [hstep]
    exact ih (fun v hv => hno v (List.mem_cons_of_mem _ hv))

theorem updRowFold_single_target (ids : List Nat) (pre post : List UpdateItem)
    (u : UpdateItem) (i : Nat) (r₀ : Row)
    (hu : u.id = some i) (hiz : i ≠ 0) (hii : i ∈ ids) (hr : r₀.id = i)
    (hpre : ∀ v ∈ pre, v.id ≠ some i) (hpost : ∀ v ∈ post, v.id ≠ some i) :
    updRowFold ids (pre ++ u :: post) r₀ = updateFields u r₀ := by
  unfold updRowFold
  rw [List.foldl_append]
  have h1 : pre.foldl (updRowStep ids) r₀ = r₀ :=
    updRowFold_of_no_match ids pre r₀ (fun v hv => hr ▸ hpre v hv)
  rw [h1, List.foldl_cons]
  have h2 : updRowStep ids r₀ u = updateFields u r₀ := by
    rw [updRowStep_eq_of_valid ids u r₀ hu ⟨hiz, hii⟩]
    unfold updateOne
    rw [if_pos hr]
  rw [h2]
  have h3 : (updateFields u r₀).id = i := hr
  exact updRowFold_of_no_match ids post (updateFields u r₀)
    (fun v hv => h3 ▸ hpost v hv)

/-- Rows carry their non-position fields through the renumbering pass:
a row of the store reappears after renumbering with the same id, data,
styles and height. -/
theorem renumber_mem_strip (l : List Row) (x : Row) (hx : x ∈ l) :
    ∃ r' ∈ renumber l, r'.id = x.id ∧ r'.data = x.data ∧
      r'.styles = x.styles ∧ r'.height = x.height := by
  have hstrip : stripOrder x ∈ (renumber l).map stripOrder :=
    (renumber_map_strip_perm l).mem_iff.mpr (List.mem_map_of_mem stripOrder hx)
  obtain ⟨r', hr', hs⟩ := List.mem_map.mp hstrip
  unfold stripOrder at hs
  simp only [Prod.mk.injEq] at hs
  exact ⟨r', hr', hs.1, hs.2.1, hs.2.2.1, hs.2.2.2⟩

/-- C7 — Partial-update frame property of step 3: an update item whose id
passes the lookup modifies only the fields present in the item (`data`,
`styles`, `height`) — absent fields keep their prior values — and never
changes the row's id or its position fields; rows referenced by no item
are completely unchanged; items referencing unknown ids are recorded in
the errors list (and, the row store being otherwise characterised, are
skipped). -/
theorem claim_C7_update_frame_property (rows : List Row) (us pre post : List UpdateItem)
    (u : UpdateItem) (i : Nat) (r₀ : Row)
    (hid : (rows.map (fun r => r.id)).Nodup)
    (hsplit : us = pre ++ u :: post)
    (hu : u.id = some i) (hiz : i ≠ 0)
    (hf : findRow rows i = some r₀)
    (hpre : ∀ v ∈ pre, v.id ≠ some i) (hpost : ∀ v ∈ post, v.id ≠ some i) :
    findRow (updatesStep rows us).1 i =
      some { r₀ with data := u.data.getD r₀.data, styles := u.styles.getD r₀.styles,
                     height := u.height.getD r₀.height } ∧
    (∀ r ∈ rows, (∀ v ∈ us, v.id ≠ some r.id) →
      findRow (updatesStep rows us).1 r.id = some r) ∧
    (∀ v ∈ us, ∀ k, v.id = some k → k ∉ rows.map (fun r => r.id) →
      ((some k, "Row not found for update") : ErrEntry) ∈ (updatesStep rows us).2.2) := by
  obtain ⟨hr₀mem, hr₀id⟩ := findRow_eq_some hf
  have hii : i ∈ rows.map (fun r => r.id) := hr₀id ▸ List.mem_map_of_mem _ hr₀mem
  refine ⟨?_, ?_, ?_⟩
  · rw [updatesStep_eq]
    dsimp only
    rw [findRow_map (updRowFold_id _ us) rows i, hf, Option.map_some']
    rw [hsplit, updRowFold_single_target _ pre post u i r₀ hu hiz hii hr₀id hpre hpost]
    rfl
  · intro r hr hno
    rw [updatesStep_eq]
    dsimp only
    rw [findRow_map (updRowFold_id _ us) rows r.id,
      findRow_of_mem hid hr rfl, Option.map_some',
      updRowFold_of_no_match _ us r hno]
  · intro v hv k hvk hk
    rw [updatesStep_eq]
    dsimp only
    refine List.mem_filterMap.mpr ⟨v, hv, ?_⟩
    unfold errOf
    rw [hvk]
    show (if k ≠ 0 ∧ k ∈ rows.map (fun r => r.id) then none else
      some ((some k, "Row not found for update") : ErrEntry)) =
      some ((some k, "Row not found for update") : ErrEntry)
    rw [if_neg ?_]
    intro hc
    exact hk hc.2

/-- Witness for C7 at a concrete input: a batch of two update items, the
first setting only `data` on the row with id 2, the second referencing
the unknown id 9. -/
theorem claim_C7_witness :
    findRow (updatesStep [wRow 1 1, wRow 2 2, wRow 3 3]
        [⟨some 2, some [("k", "new")], none, none⟩, ⟨some 9, none, none, some 50⟩]).1 2 =
      some { wRow 2 2 with
              data := (some [("k", "new")]).getD (wRow 2 2).data,
              styles := (none : Option Payload).getD (wRow 2 2).styles,
              height := (none : Option Nat).getD (wRow 2 2).height } ∧
    (∀ r ∈ [wRow 1 1, wRow 2 2, wRow 3 3],
      (∀ v ∈ [(⟨some 2, some [("k", "new")], none, none⟩ : UpdateItem),
              ⟨some 9, none, none, some 50⟩], v.id ≠ some r.id) →
      findRow (updatesStep [wRow 1 1, wRow 2 2, wRow 3 3]
        [⟨some 2, some [("k", "new")], none, none⟩, ⟨some 9, none, none, some 50⟩]).1 r.id =
        some r) ∧
    (∀ v ∈ [(⟨some 2, some [("k", "new")], none, none⟩ : UpdateItem),
            ⟨some 9, none, none, some 50⟩], ∀ k, v.id = some k →
      k ∉ [wRow 1 1, wRow 2 2, wRow 3 3].map (fun r => r.id) →
      ((some k, "Row not found for update") : ErrEntry) ∈
        (updatesStep [wRow 1 1, wRow 2 2, wRow 3 3]
          [⟨some 2, some [("k", "new")], none, none⟩, ⟨some 9, none, none, some 50⟩]).2.2) :=
  claim_C7_update_frame_property [wRow 1 1, wRow 2 2, wRow 3 3]
    [⟨some 2, some [("k", "new")], none, none⟩, ⟨some 9, none, none, some 50⟩]
    [] [⟨some 9, none, none, some 50⟩]
    ⟨some 2, some [("k", "new")], none, none⟩ 2 (wRow 2 2)
    (by decide) (by decide) (by decide) (by decide) (by decide)
    (by decide) (by decide)

/-- A valid update item's effect survives the renumbering pass: the
targeted row reappears with the updated payload fields. -/
theorem persisted_update (rows : List Row) (us pre post : List UpdateItem)
    (u : UpdateItem) (i : Nat) (r₀ : Row)
    (hsplit : us = pre ++ u :: post)
    (hu : u.id = some i) (hiz : i ≠ 0) (hf : findRow rows i = some r₀)
    (hpre : ∀ v ∈ pre, v.id ≠ some i) (hpost : ∀ v ∈ post, v.id ≠ some i) :
    ∃ r' ∈ renumber (updatesStep rows us).1,
      r'.id = i ∧ r'.data = u.data.getD r₀.data ∧
      r'.styles = u.styles.getD r₀.styles ∧ r'.height = u.height.getD r₀.height := by
  obtain ⟨hr₀mem, hr₀id⟩ := findRow_eq_some hf
  have hii : i ∈ rows.map (fun r => r.id) := hr₀id ▸ List.mem_map_of_mem _ hr₀mem
  have hF : updRowFold (rows.map (fun r => r.id)) us r₀ = updateFields u r₀ := by
    rw [hsplit]
    exact updRowFold_single_target _ pre post u i r₀ hu hiz hii hr₀id hpre hpost
  have hmem : updateFields u r₀ ∈ (updatesStep rows us).1 := by
    rw [updatesStep_eq]
    dsimp only
    exact hF ▸ List.mem_map_of_mem _ hr₀mem
  obtain ⟨r', hr', hid', hdata', hstyles', hheight'⟩ :=
    renumber_mem_strip (updatesStep rows us).1 (updateFields u r₀) hmem
  exact ⟨r', hr', hr₀id ▸ hid', hdata', hstyles', hheight'⟩

/-- C4 — Partial-failure semantics: a batch of four updates, three
referencing existing rows (distinct ids) and one referencing an unknown
id, completes with `updated_count = 3`, exactly one error entry naming
the unknown id, `success = false`, and the three valid updates persisted
into the final sheet (not rolled back); and in general, for every
completed batch, `success` is true exactly when the errors list is
empty. -/
theorem claim_C4_item_level_failure (s : Sheet)
    (u1 u2 u3 u4 : UpdateItem) (i1 i2 i3 j : Nat) (r1 r2 r3 : Row)
    (h1 : u1.id = some i1) (h2 : u2.id = some i2) (h3 : u3.id = some i3)
    (h4 : u4.id = some j)
    (hf1 : findRow s.rows i1 = some r1) (hf2 : findRow s.rows i2 = some r2)
    (hf3 : findRow s.rows i3 = some r3)
    (hz1 : i1 ≠ 0) (hz2 : i2 ≠ 0) (hz3 : i3 ≠ 0)
    (hj : j ∉ s.rows.map (fun r => r.id))
    (hd12 : i1 ≠ i2) (hd13 : i1 ≠ i3) (hd23 : i2 ≠ i3) :
    (∃ s' res, patch s (canonReq [u1, u2, u3, u4] [] [] []) = some (s', res) ∧
      res.updated_count = 3 ∧
      res.errors = [(some j, "Row not found for update")] ∧
      res.success = false ∧
      (∃ r' ∈ s'.rows, r'.id = i1 ∧ r'.data = u1.data.getD r1.data ∧
        r'.styles = u1.styles.getD r1.styles ∧ r'.height = u1.height.getD r1.height) ∧
      (∃ r' ∈ s'.rows, r'.id = i2 ∧ r'.data = u2.data.getD r2.data ∧
        r'.styles = u2.styles.getD r2.styles ∧ r'.height = u2.height.getD r2.height) ∧
      (∃ r' ∈ s'.rows, r'.id = i3 ∧ r'.data = u3.data.getD r3.data ∧
        r'.styles = u3.styles.getD r3.styles ∧ r'.height = u3.height.getD r3.height)) ∧
    (∀ t rq p, patch t rq = some p → (p.2.success = true ↔ p.2.errors = [])) := by
  have hi1 : i1 ∈ s.rows.map (fun r => r.id) := by
    obtain ⟨hm, hid'⟩ := findRow_eq_some hf1
    exact hid' ▸ List.mem_map_of_mem _ hm
  have hi2 : i2 ∈ s.rows.map (fun r => r.id) := by
    obtain ⟨hm, hid'⟩ := findRow_eq_some hf2
    exact hid' ▸ List.mem_map_of_mem _ hm
  have hi3 : i3 ∈ s.rows.map (fun r => r.id) := by
    obtain ⟨hm, hid'⟩ := findRow_eq_some hf3
    exact hid' ▸ List.mem_map_of_mem _ hm
  have hne : ∀ {a b : Nat}, a ≠ b → (some a : Option Nat) ≠ some b := by
    intro a b hab hc
    exact hab (Option.some_injective _ hc)
  have hju : ∀ {a : Nat}, a ∈ s.rows.map (fun r => r.id) → (some j : Option Nat) ≠ some a := by
    intro a ha hc
    exact hj ((Option.some_injective _ hc) ▸ ha)
  constructor
  · set us := [u1, u2, u3, u4] with hus
    set ids := s.rows.map (fun r => r.id) with hids
    have hv1 : validB ids u1 = true := by
      unfold validB
      rw [h1]
      show decide (i1 ≠ 0 ∧ i1 ∈ ids) = true
      simp only [decide_eq_true_eq]
      exact ⟨hz1, hi1⟩
    have hv2 : validB ids u2 = true := by
      unfold validB
      rw [h2]
      show decide (i2 ≠ 0 ∧ i2 ∈ ids) = true
      simp only [decide_eq_true_eq]
      exact ⟨hz2, hi2⟩
    have hv3 : validB ids u3 = true := by
      unfold validB
      rw [h3]
      show decide (i3 ≠ 0 ∧ i3 ∈ ids) = true
      simp only [decide_eq_true_eq]
      exact ⟨hz3, hi3⟩
    have hv4 : ¬(validB ids u4 = true) := by
      unfold validB
      rw [h4]
      show ¬(decide (j ≠ 0 ∧ j ∈ ids) = true)
      simp only [decide_eq_true_eq]
      intro hc
      exact hj hc.2
    have he1 : errOf ids u1 = none := by
      unfold errOf
      rw [h1]
      show (if i1 ≠ 0 ∧ i1 ∈ ids then none else
        some ((some i1, "Row not found for update") : ErrEntry)) = none
      rw [if_pos ⟨hz1, hi1⟩]
    have he2 : errOf ids u2 = none := by
      unfold errOf
      rw [h2]
      show (if i2 ≠ 0 ∧ i2 ∈ ids then none else
        some ((some i2, "Row not found for update") : ErrEntry)) = none
      rw [if_pos ⟨hz2, hi2⟩]
    have he3 : errOf ids u3 = none := by
      unfold errOf
      rw [h3]
      show (if i3 ≠ 0 ∧ i3 ∈ ids then none else
        some ((some i3, "Row not found for update") : ErrEntry)) = none
      rw [if_pos ⟨hz3, hi3⟩]
    have he4 : errOf ids u4 = some ((some j, "Row not found for update") : ErrEntry) := by
      unfold errOf
      rw [h4]
      show (if j ≠ 0 ∧ j ∈ ids then none else
        some ((some j, "Row not found for update") : ErrEntry)) =
        some ((some j, "Row not found for update") : ErrEntry)
      rw [if_neg ?_]
      intro hc
      exact hj hc.2
    have hcount : (updatesStep s.rows us).2.1 = 3 := by
      rw [updatesStep_eq]
      dsimp only
      rw [← hids, hus, List.countP_cons_of_pos _ _ hv1, List.countP_cons_of_pos _ _ hv2,
        List.countP_cons_of_pos _ _ hv3, List.countP_cons_of_neg _ _ hv4,
        List.countP_nil]
    have herrs : (updatesStep s.rows us).2.2 =
        [(some j, "Row not found for update")] := by
      rw [updatesStep_eq]
      dsimp only
      rw [← hids, hus, List.filterMap_cons_none he1, List.filterMap_cons_none he2,
        List.filterMap_cons_none he3, List.filterMap_cons_some he4,
        List.filterMap_nil]
    refine ⟨⟨renumber ((updatesStep s.rows us).1 ++ []),
            (renumber ((updatesStep s.rows us).1 ++ [])).length, s.nextId⟩,
          mkResult (updatesStep s.rows us).2.1 0 0 0
            (renumber ((updatesStep s.rows us).1 ++ [])).length
            (updatesStep s.rows us).2.2,
          rfl, hcount, herrs, ?_, ?_, ?_, ?_⟩
    · show ((updatesStep s.rows us).2.2).isEmpty = false
      rw [herrs]
      rfl
    · show ∃ r' ∈ renumber ((updatesStep s.rows us).1 ++ []), _
      rw [List.append_nil]
      refine persisted_update s.rows us [] [u2, u3, u4] u1 i1 r1 rfl h1 hz1 hf1 ?_ ?_
      · intro v hv
        cases hv
      · intro v hv
        simp only [List.mem_cons, List.not_mem_nil, or_false] at hv
        rcases hv with rfl | rfl | rfl
        · rw [h2]
          exact fun hc => hd12 (Option.some_injective _ hc).symm
        · rw [h3]
          exact fun hc => hd13 (Option.some_injective _ hc).symm
        · rw [h4]
          exact hju hi1
    · show ∃ r' ∈ renumber ((updatesStep s.rows us).1 ++ []), _
      rw [List.append_nil]
      refine persisted_update s.rows us [u1] [u3, u4] u2 i2 r2 rfl h2 hz2 hf2 ?_ ?_
      · intro v hv
        simp only [List.mem_singleton] at hv
        subst hv
        rw [h1]
        exact fun hc => hd12 (Option.some_injective _ hc)
      · intro v hv
        simp only [List.mem_cons, List.not_mem_nil, or_false] at hv
        rcases hv with rfl | rfl
        · rw [h3]
          exact fun hc => hd23 (Option.some_injective _ hc).symm
        · rw [h4]
          exact hju hi2
    · show ∃ r' ∈ renumber ((updatesStep s.rows us).1 ++ []), _
      rw [List.append_nil]
      refine persisted_update s.rows us [u1, u2] [u4] u3 i3 r3 rfl h3 hz3 hf3 ?_ ?_
      · intro v hv
        simp only [List.mem_cons, List.not_mem_nil, or_false] at hv
        rcases hv with rfl | rfl
        · rw [h1]
          exact fun hc => hd13 (Option.some_injective _ hc)
        · rw [h2]
          exact fun hc => hd23 (Option.some_injective _ hc)
      · intro v hv
        simp only [List.mem_singleton] at hv
        subst hv
        rw [h4]
        exact hju hi3
  · intro t rq p hp
    unfold patch patchOps at hp
    dsimp only at hp
    split at hp
    · cases hp
    · simp only [Option.some.injEq] at hp
      subst hp
      simp [mkResult, List.isEmpty_iff]

/-- Witness for C4 at a concrete input: three valid updates and one
referencing the unknown id 9 against a three-row sheet. -/
theorem claim_C4_witness :
    (∃ s' res, patch wSheet3 (canonReq
        [⟨some 1, some [("k", "u1")], none, none⟩,
         ⟨some 2, some [("k", "u2")], none, none⟩,
         ⟨some 3, some [("k", "u3")], none, none⟩,
         ⟨some 9, some [("k", "u4")], none, none⟩] [] [] []) = some (s', res) ∧
      res.updated_count = 3 ∧
      res.errors = [(some 9, "Row not found for update")] ∧
      res.success = false ∧
      (∃ r' ∈ s'.rows, r'.id = 1 ∧
        r'.data = (some [("k", "u1")] : Option Payload).getD (wRow 1 1).data ∧
        r'.styles = (none : Option Payload).getD (wRow 1 1).styles ∧
        r'.height = (none : Option Nat).getD (wRow 1 1).height) ∧
      (∃ r' ∈ s'.rows, r'.id = 2 ∧
        r'.data = (some [("k", "u2")] : Option Payload).getD (wRow 2 2).data ∧
        r'.styles = (none : Option Payload).getD (wRow 2 2).styles ∧
        r'.height = (none : Option Nat).getD (wRow 2 2).height) ∧
      (∃ r' ∈ s'.rows, r'.id = 3 ∧
        r'.data = (some [("k", "u3")] : Option Payload).getD (wRow 3 3).data ∧
        r'.styles = (none : Option Payload).getD (wRow 3 3).styles ∧
        r'.height = (none : Option Nat).getD (wRow 3 3).height)) ∧
    (∀ t rq p, patch t rq = some p → (p.2.success = true ↔ p.2.errors = [])) :=
  claim_C4_item_level_failure wSheet3
    ⟨some 1, some [("k", "u1")], none, none⟩
    ⟨some 2, some [("k", "u2")], none, none⟩
    ⟨some 3, some [("k", "u3")], none, none⟩
    ⟨some 9, some [("k", "u4")], none, none⟩
    1 2 3 9 (wRow 1 1) (wRow 2 2) (wRow 3 3)
    (by decide) (by decide) (by decide) (by decide)
    (by decide) (by decide) (by decide)
    (by decide) (by decide) (by decide)
    (by decide) (by decide) (by decide) (by decide)

/-! ## Step-computation helpers for the scenario claims -/

theorem deleteStep_nil (rows : List Row) : deleteStep rows [] = (rows, 0, []) := rfl

theorem updatesStep_nil (rows : List Row) : updatesStep rows [] = (rows, 0, []) := rfl

theorem appendStep_nil (rows : List Row) (nid : Nat) :
    appendStep rows nid [] = (rows, nid, 0) := by
  unfold appendStep
  simp

/-- `patchOps` unfolded, given that the insertion phase succeeded. -/
theorem patchOps_some (s : Sheet) (ops : Ops) (ins : List Row × Nat × Nat)
    (h : insertStep (deleteStep s.rows ops.deletions).1 s.nextId ops.insertions = some ins) :
    patchOps s ops = some
      (⟨renumber (appendStep (updatesStep ins.1 ops.updates).1 ins.2.1 ops.appends).1,
        (renumber (appendStep (updatesStep ins.1 ops.updates).1 ins.2.1 ops.appends).1).length,
        (appendStep (updatesStep ins.1 ops.updates).1 ins.2.1 ops.appends).2.1⟩,
       mkResult (updatesStep ins.1 ops.updates).2.1 ins.2.2
         (appendStep (updatesStep ins.1 ops.updates).1 ins.2.1 ops.appends).2.2
         (deleteStep s.rows ops.deletions).2.1
         (renumber (appendStep (updatesStep ins.1 ops.updates).1 ins.2.1 ops.appends).1).length
         ((deleteStep s.rows ops.deletions).2.2 ++ (updatesStep ins.1 ops.updates).2.2)) := by
  unfold patchOps
  dsimp only
  rw [h]

/-- The insertion phase for a single item at a non-negative target
position. -/
theorem insertStep_single (rows : List Row) (nid : Nat) (item : InsertItem) (p : Int)
    (hip : insertAtOrder item = p) (hp : ¬ p < 0) :
    insertStep rows nid [item] =
      some (shiftApply rows p ++ [newRowFromInsert nid p item], nid + 1, 1) := by
  unfold insertStep
  have hs : sortLtBy insertAtOrder [item] = [item] := rfl
  rw [hs]
  unfold insertLoop insertOne
  rw [hip, if_neg hp]
  simp [insertLoop]

/-- C5 — Insert-in-middle scenario: on a sheet whose rows sit at
positions 1..5, a batch with a single insertion at position 3 yields a
sheet whose new row (with the next fresh id) sits at position 3, whose
former rows at positions 3, 4, 5 now sit at 4, 5, 6 with unchanged ids,
and whose row count is 6. -/
theorem claim_C5_insert_in_middle (s : Sheet) (item : InsertItem)
    (r1 r2 r3 r4 r5 : Row)
    (hrows : s.rows = [r1, r2, r3, r4, r5])
    (hp1 : r1.row_order = 1) (hp2 : r2.row_order = 2) (hp3 : r3.row_order = 3)
    (hp4 : r4.row_order = 4) (hp5 : r5.row_order = 5)
    (hins : item.insert_at_order = some 3)
    (hid : (s.rows.map (fun r => r.id)).Nodup) :
    ∃ s' res, patch s (canonReq [] [item] [] []) = some (s', res) ∧
      s'.rows.map (fun r => r.row_order) = [1, 2, 3, 4, 5, 6] ∧
      s'.rows.map (fun r => r.id) = [r1.id, r2.id, s.nextId, r3.id, r4.id, r5.id] ∧
      s'.row_count = 6 ∧ res.row_count = 6 ∧
      res.inserted_count = 1 ∧ res.errors = [] := by
  obtain ⟨rows, rc, nid⟩ := s
  simp only at hrows hid ⊢
  subst hrows
  have hP : insertAtOrder item = 3 := by
    unfold insertAtOrder
    rw [hins]
    rfl
  have hshift : shiftApply [r1, r2, r3, r4, r5] 3 =
      [r1, r2, incRow r3, incRow r4, incRow r5] := by
    rw [shiftApply_eq _ _ hid]
    simp [hp1, hp2, hp3, hp4, hp5]
  have hins1 : insertStep [r1, r2, r3, r4, r5] nid [item] =
      some ([r1, r2, incRow r3, incRow r4, incRow r5] ++
        [newRowFromInsert nid 3 item], nid + 1, 1) := by
    rw [insertStep_single _ _ item 3 hP (by decide), hshift]
  have hsort : sortByOrder ([r1, r2, incRow r3, incRow r4, incRow r5] ++
      [newRowFromInsert nid 3 item]) =
      [r1, r2, newRowFromInsert nid 3 item, incRow r3, incRow r4, incRow r5] := by
    simp [sortByOrder, sortLtBy, insertLtBy, incRow, newRowFromInsert,
      hp1, hp2, hp3, hp4, hp5]
  have hren : renumber ([r1, r2, incRow r3, incRow r4, incRow r5] ++
      [newRowFromInsert nid 3 item]) =
      [r1, r2, newRowFromInsert nid 3 item, incRow r3, incRow r4, incRow r5] := by
    unfold renumber
    rw [hsort]
    simp [renumberFrom, incRow, newRowFromInsert, hp1, hp2, hp3, hp4, hp5]
  have hpatch : patch ⟨[r1, r2, r3, r4, r5], rc, nid⟩ (canonReq [] [item] [] []) =
      some (⟨[r1, r2, newRowFromInsert nid 3 item, incRow r3, incRow r4, incRow r5],
             6, nid + 1⟩, mkResult 0 1 0 0 6 []) := by
    unfold patch
    rw [parseOps_canon,
      patchOps_some ⟨[r1, r2, r3, r4, r5], rc, nid⟩ ⟨[], [item], [], []⟩ _ hins1]
    simp only [updatesStep_nil, appendStep_nil]
    rw [hren]
    rfl
  refine ⟨_, _, hpatch, ?_, ?_, rfl, rfl, rfl, rfl⟩
  · simp [incRow, newRowFromInsert, hp1, hp2, hp3, hp4, hp5]
  · simp [incRow, newRowFromInsert]

/-- Witness for C5 at a concrete input: the five-row sheet with ids
1..5 at positions 1..5, one insertion at position 3. -/
theorem claim_C5_witness :
    ∃ s' res, patch wSheet5
        (canonReq [] [⟨some 3, some [("k", "new")], none, none⟩] [] []) = some (s', res) ∧
      s'.rows.map (fun r => r.row_order) = [1, 2, 3, 4, 5, 6] ∧
      s'.rows.map (fun r => r.id) =
        [(wRow 1 1).id, (wRow 2 2).id, wSheet5.nextId, (wRow 3 3).id,
         (wRow 4 4).id, (wRow 5 5).id] ∧
      s'.row_count = 6 ∧ res.row_count = 6 ∧
      res.inserted_count = 1 ∧ res.errors = [] :=
  claim_C5_insert_in_middle wSheet5 ⟨some 3, some [("k", "new")], none, none⟩
    (wRow 1 1) (wRow 2 2) (wRow 3 3) (wRow 4 4) (wRow 5 5)
    (by decide) (by decide) (by decide) (by decide) (by decide) (by decide)
    (by decide) (by decide)

/-- C6 — Delete-then-append scenario: on a sheet whose rows sit at
positions 1..5, a batch that deletes the id of the row at position 3 and
appends one new row ends with positions exactly 1..5: the four survivors
are renumbered 1..4 in their prior relative order and the appended row —
which was first created at position `max_position + 1 = 6`, the gap at
the old position 3 still open — ends at position 5 with the next fresh
id. -/
theorem claim_C6_delete_then_append (s : Sheet) (ap : AppendItem)
    (r1 r2 r3 r4 r5 : Row)
    (hrows : s.rows = [r1, r2, r3, r4, r5])
    (hp1 : r1.row_order = 1) (hp2 : r2.row_order = 2) (_hp3 : r3.row_order = 3)
    (hp4 : r4.row_order = 4) (hp5 : r5.row_order = 5)
    (hid : (s.rows.map (fun r => r.id)).Nodup) :
    ∃ s' res, patch s (canonReq [] [] [r3.id] [ap]) = some (s', res) ∧
      s'.rows.map (fun r => r.row_order) = [1, 2, 3, 4, 5] ∧
      s'.rows.map (fun r => r.id) = [r1.id, r2.id, r4.id, r5.id, s.nextId] ∧
      s'.row_count = 5 ∧ res.row_count = 5 ∧ res.deleted_count = 1 ∧
      res.created_count = 1 ∧ res.errors = [] := by
  obtain ⟨rows, rc, nid⟩ := s
  simp only at hrows hid ⊢
  subst hrows
  simp only [List.map_cons, List.map_nil, List.nodup_cons, List.mem_cons,
    List.mem_singleton, List.not_mem_nil, or_false, not_or, List.nodup_nil,
    and_true] at hid
  obtain ⟨⟨h12, h13, h14, h15⟩, ⟨h23, h24, h25⟩, ⟨h34, h35⟩, h45, -⟩ := hid
  have hdel : deleteStep [r1, r2, r3, r4, r5] [r3.id] = ([r1, r2, r4, r5], 1, []) := by
    unfold deleteStep
    rw [if_neg (by simp : ¬(([r3.id] : List Nat).isEmpty = true))]
    simp [dedupFirst, h13, h23, Ne.symm h34, Ne.symm h35]
  have hmax : maxRowOrder [r1, r2, r4, r5] = some 5 := by
    simp only [maxRowOrder]
    rw [hp1, hp2, hp4, hp5]
    decide
  have happ : appendStep [r1, r2, r4, r5] nid [ap] =
      ([r1, r2, r4, r5] ++ [newRowFromAppend nid 6 ap], nid + 1, 1) := by
    unfold appendStep
    rw [hmax]
    simp [newRowFromAppend]
  have hsort6 : sortByOrder ([r1, r2, r4, r5] ++ [newRowFromAppend nid 6 ap]) =
      [r1, r2, r4, r5, newRowFromAppend nid 6 ap] := by
    simp [sortByOrder, sortLtBy, insertLtBy, newRowFromAppend, hp1, hp2, hp4, hp5]
  have hren : renumber ([r1, r2, r4, r5] ++ [newRowFromAppend nid 6 ap]) =
      [r1, r2, { r4 with row_order := 3, row_number := 3 },
       { r5 with row_order := 4, row_number := 4 },
       { newRowFromAppend nid 6 ap with row_order := 5, row_number := 5 }] := by
    unfold renumber
    rw [hsort6]
    simp [renumberFrom, newRowFromAppend, hp1, hp2, hp4, hp5]
  have hpatch : patch ⟨[r1, r2, r3, r4, r5], rc, nid⟩ (canonReq [] [] [r3.id] [ap]) =
      some (⟨[r1, r2, { r4 with row_order := 3, row_number := 3 },
              { r5 with row_order := 4, row_number := 4 },
              { newRowFromAppend nid 6 ap with row_order := 5, row_number := 5 }],
             5, nid + 1⟩, mkResult 0 0 1 1 5 []) := by
    unfold patch
    rw [parseOps_canon,
      patchOps_some ⟨[r1, r2, r3, r4, r5], rc, nid⟩ ⟨[], [], [r3.id], [ap]⟩
        ([r1, r2, r4, r5], nid, 0) (by rw [hdel]; rfl)]
    simp only [updatesStep_nil, hdel, happ, hren]
    rfl
  refine ⟨_, _, hpatch, ?_, ?_, rfl, rfl, rfl, rfl, rfl⟩
  · simp [newRowFromAppend, hp1, hp2]
  · simp [newRowFromAppend]

/-- Witness for C6 at a concrete input: the five-row sheet with ids 1..5
at positions 1..5, deleting the id of the row at position 3 (id 3) and
appending one row. -/
theorem claim_C6_witness :
    ∃ s' res, patch wSheet5
        (canonReq [] [] [(wRow 3 3).id] [⟨some [("k", "app")], none, none⟩]) =
          some (s', res) ∧
      s'.rows.map (fun r => r.row_order) = [1, 2, 3, 4, 5] ∧
      s'.rows.map (fun r => r.id) =
        [(wRow 1 1).id, (wRow 2 2).id, (wRow 4 4).id, (wRow 5 5).id, wSheet5.nextId] ∧
      s'.row_count = 5 ∧ res.row_count = 5 ∧ res.deleted_count = 1 ∧
      res.created_count = 1 ∧ res.errors = [] :=
  claim_C6_delete_then_append wSheet5 ⟨some [("k", "app")], none, none⟩
    (wRow 1 1) (wRow 2 2) (wRow 3 3) (wRow 4 4) (wRow 5 5)
    (by decide) (by decide) (by decide) (by decide) (by decide) (by decide)
    (by decide)

/-! ## Sorted-list head and last helpers -/

theorem head?_map_own (f : Row → Nat) (l : List Row) :
    (l.map f).head? = l.head?.map f := by
  cases l <;> rfl

theorem getLast?_map_own (f : Row → Nat) (l : List Row) :
    (l.map f).getLast? = l.getLast?.map f := by
  induction l with
  | nil => rfl
  | cons a t ih =>
    cases t with
    | nil => rfl
    | cons b t' =>
      rw [List.map_cons, List.map_cons, List.getLast?_cons_cons,
        List.getLast?_cons_cons, ← List.map_cons]
      exact ih

theorem head?_eq_of_sorted_min (l : List Row)
    (hpw : l.Pairwise (fun a b => a.row_order ≤ b.row_order))
    (x : Row) (hx : x ∈ l)
    (hmin : ∀ y ∈ l, y = x ∨ x.row_order < y.row_order) :
    l.head? = some x := by
  cases l with
  | nil => cases hx
  | cons y t =>
    rcases List.mem_cons.mp hx with rfl | hxt
    · rfl
    · rcases hmin y (List.mem_cons_self y t) with rfl | hlt
      · rfl
      · exfalso
        have hle := (List.pairwise_cons.mp hpw).1 x hxt
        omega

theorem getLast?_eq_of_sorted_max (l : List Row)
    (hpw : l.Pairwise (fun a b => a.row_order ≤ b.row_order))
    (x : Row) (hx : x ∈ l)
    (hmax : ∀ y ∈ l, y = x ∨ y.row_order < x.row_order) :
    l.getLast? = some x := by
  induction l with
  | nil => cases hx
  | cons y t ih =>
    rw [List.pairwise_cons] at hpw
    cases t with
    | nil =>
      have : x = y := by simpa using hx
      subst this
      rfl
    | cons z t' =>
      rw [List.getLast?_cons_cons]
      have hx' : x ∈ z :: t' := by
        rcases List.mem_cons.mp hx with rfl | h
        · rcases hmax z (List.mem_cons_of_mem _ (List.mem_cons_self z t')) with rfl | hlt
          · exact List.mem_cons_self z t'
          · exfalso
            have hyz := hpw.1 z (List.mem_cons_self z t')
            omega
        · exact h
      exact ih hpw.2 hx' (fun y' hy' => hmax y' (List.mem_cons_of_mem _ hy'))

/-- C10 (counterexample to the claim as stated): an insertion at the
negative position −1 does not silently create a row — the created row's
`row_order`/`row_number` would violate the store's non-negativity
constraint (`PositiveIntegerField`), so the whole batch aborts and
nothing is persisted. -/
theorem claim_C10_counterexample :
    patch wSheet3 (canonReq [] [⟨some (-1), none, none, none⟩] [] []) = none := by
  decide

/-- C10 (amended) — Out-of-range, non-negative insertion positions are
accepted silently: for a sheet with distinct ids and distinct positions
all `≥ 1`, a batch with one insertion at any position `p ≥ 0` completes
with no per-item error, `inserted_count = 1`, one more row, and final
positions exactly 1..N+1; when `p = 0` every existing row is shifted and
the new row (with the next fresh id) ends up first; when `p` exceeds
every current position (in particular when `p > N + 1`) nothing is
shifted and the new row ends up last.  (Negative positions instead abort
the whole batch, see the counterexample.) -/
theorem claim_C10_out_of_range_insertions (s : Sheet) (item : InsertItem) (p : Int)
    (hid : (s.rows.map (fun r => r.id)).Nodup)
    (hpos : (s.rows.map (fun r => r.row_order)).Nodup)
    (hpos1 : ∀ r ∈ s.rows, 1 ≤ r.row_order)
    (hitem : item.insert_at_order = some p) (hp : 0 ≤ p) :
    ∃ s' res, patch s (canonReq [] [item] [] []) = some (s', res) ∧
      res.errors = [] ∧ res.inserted_count = 1 ∧
      s'.rows.length = s.rows.length + 1 ∧
      s'.rows.map (fun r => r.row_order) = intRange 1 (s.rows.length + 1) ∧
      (p = 0 → (s'.rows.map (fun r => r.id)).head? = some s.nextId) ∧
      ((∀ r ∈ s.rows, r.row_order < p) →
        (s'.rows.map (fun r => r.id)).getLast? = some s.nextId) := by
  obtain ⟨rows, rc, nid⟩ := s
  simp only at hid hpos hpos1 hitem ⊢
  have hP : insertAtOrder item = p := by
    unfold insertAtOrder
    rw [hitem]
    rfl
  have hins1 := insertStep_single rows nid item p hP (by omega)
  have hpatch : patch ⟨rows, rc, nid⟩ (canonReq [] [item] [] []) =
      some (⟨renumber (shiftApply rows p ++ [newRowFromInsert nid p item]),
             (renumber (shiftApply rows p ++ [newRowFromInsert nid p item])).length,
             nid + 1⟩,
            mkResult 0 1 0 0
              (renumber (shiftApply rows p ++ [newRowFromInsert nid p item])).length
              []) := by
    unfold patch
    rw [parseOps_canon, patchOps_some ⟨rows, rc, nid⟩ ⟨[], [item], [], []⟩ _ hins1]
    simp only [updatesStep_nil, appendStep_nil]
    rfl
  have hL : (shiftApply rows p ++ [newRowFromInsert nid p item]).length
      = rows.length + 1 := by
    rw [List.length_append]
    unfold shiftApply
    rw [foldl_applyWrite_length]
    rfl
  refine ⟨_, _, hpatch, rfl, rfl, ?_, ?_, ?_, ?_⟩
  · simp only
    rw [renumber_length, hL]
  · simp only
    rw [renumber_map_order, hL]
  · intro hp0
    subst hp0
    simp only
    unfold renumber
    rw [renumberFrom_map_id, head?_map_own]
    have hshift0 : shiftApply rows 0 = rows.map incRow := by
      rw [shiftApply_eq _ _ hid]
      refine List.map_congr_left ?_
      intro x hxm
      rw [if_pos ?_]
      have := hpos1 x hxm
      omega
    have hnew : newRowFromInsert nid 0 item ∈
        sortByOrder (shiftApply rows 0 ++ [newRowFromInsert nid 0 item]) := by
      refine (sortLtBy_perm _ _).mem_iff.mpr ?_
      exact List.mem_append_right _ (List.mem_singleton.mpr rfl)
    have hmin : ∀ y ∈ sortByOrder (shiftApply rows 0 ++ [newRowFromInsert nid 0 item]),
        y = newRowFromInsert nid 0 item ∨
        (newRowFromInsert nid 0 item).row_order < y.row_order := by
      intro y hy
      have hy' := (sortLtBy_perm _ _).mem_iff.mp hy
      rcases List.mem_append.mp hy' with hy'' | hy''
      · right
        rw [hshift0] at hy''
        obtain ⟨y₀, hy₀, rfl⟩ := List.mem_map.mp hy''
        have := hpos1 y₀ hy₀
        show (0 : Int) < (incRow y₀).row_order
        unfold incRow
        simp only
        omega
      · left
        exact List.mem_singleton.mp hy''
    have hhead := head?_eq_of_sorted_min
      (sortByOrder (shiftApply rows 0 ++ [newRowFromInsert nid 0 item]))
      (sortLtBy_pairwise _ _) (newRowFromInsert nid 0 item) hnew hmin
    rw [hhead]
    rfl
  · intro hlt
    simp only
    unfold renumber
    rw [renumberFrom_map_id, getLast?_map_own]
    have hshiftid : shiftApply rows p = rows := by
      rw [shiftApply_eq _ _ hid]
      refine Eq.trans ?_ (List.map_id rows)
      refine List.map_congr_left ?_
      intro x hxm
      have hxlt := hlt x hxm
      rw [if_neg (by omega : ¬ p ≤ x.row_order)]
      rfl
    have hnew : newRowFromInsert nid p item ∈
        sortByOrder (shiftApply rows p ++ [newRowFromInsert nid p item]) := by
      refine (sortLtBy_perm _ _).mem_iff.mpr ?_
      exact List.mem_append_right _ (List.mem_singleton.mpr rfl)
    have hmax : ∀ y ∈ sortByOrder (shiftApply rows p ++ [newRowFromInsert nid p item]),
        y = newRowFromInsert nid p item ∨
        y.row_order < (newRowFromInsert nid p item).row_order := by
      intro y hy
      have hy' := (sortLtBy_perm _ _).mem_iff.mp hy
      rcases List.mem_append.mp hy' with hy'' | hy''
      · right
        rw [hshiftid] at hy''
        have := hlt y hy''
        show y.row_order < p
        omega
      · left
        exact List.mem_singleton.mp hy''
    have hlast := getLast?_eq_of_sorted_max
      (sortByOrder (shiftApply rows p ++ [newRowFromInsert nid p item]))
      (sortLtBy_pairwise _ _) (newRowFromInsert nid p item) hnew hmax
    rw [hlast]
    rfl

/-- Witness for the amended C10 at a concrete input: insertion at
position 100 into a three-row sheet (positions 1..3, so 100 > N + 1). -/
theorem claim_C10_witness :
    ∃ s' res, patch wSheet3 (canonReq [] [⟨some 100, none, none, none⟩] [] []) =
        some (s', res) ∧
      res.errors = [] ∧ res.inserted_count = 1 ∧
      s'.rows.length = wSheet3.rows.length + 1 ∧
      s'.rows.map (fun r => r.row_order) = intRange 1 (wSheet3.rows.length + 1) ∧
      ((100 : Int) = 0 → (s'.rows.map (fun r => r.id)).head? = some wSheet3.nextId) ∧
      ((∀ r ∈ wSheet3.rows, r.row_order < 100) →
        (s'.rows.map (fun r => r.id)).getLast? = some wSheet3.nextId) :=
  claim_C10_out_of_range_insertions wSheet3 ⟨some 100, none, none, none⟩ 100
    (by decide) (by decide) (by decide) (by decide) (by decide)

end Activities
